import Mathlib

/-!
Verification of the bootc installer and boot-entry manager against its
specification.  The development shallowly embeds the relevant Rust code:

* kernel command-line parsing (crates/lib/src/kernel_cmdline.rs) over raw
  bytes, modelled as `List Nat` with every byte below 256 in practice;
* the Boot Loader Specification config model
  (crates/lib/src/parsers/bls_config.rs) over Rust strings, modelled as
  `List Char` (Rust String is UTF-8; char-wise operations such as trim,
  lines and split are exactly char-list operations, and the byte-wise
  string order coincides with code-point order under UTF-8);
* the composefs boot-entry setup slice of crates/lib/src/install.rs;
* the stream decompressor of crates/ostree-ext/src/generic_decompress.rs.
-/

namespace Bootc

/-! ### Kernel command line (crates/lib/src/kernel_cmdline.rs)

Raw bytes are modelled as `List Nat`.  ASCII literals are written through
the helper `bytes`. -/

/-- ASCII string literal as a byte list (every literal used here is ASCII,
where the UTF-8 bytes of a Rust literal are exactly the code points). -/
def bytes (s : String) : List Nat := s.data.map Char.toNat

/-- Embeds u8::is_ascii_whitespace: space, tab, newline, form feed,
carriage return. -/
def isAsciiWhitespace (c : Nat) : Bool :=
  c = 32 || c = 9 || c = 10 || c = 12 || c = 13

/-- Embeds the stateful closure given to slice::split in Cmdline::iter
(kernel_cmdline.rs lines 44-55): a double quote (byte 34) toggles the
in-quotes state before the separator test; a byte is a separator when it
is ASCII whitespace and we are not inside quotes.  Like slice::split, the
piece after the last separator is always emitted, even when empty. -/
def splitLoop (inq : Bool) (acc : List Nat) : List Nat → List (List Nat)
  | [] => [acc.reverse]
  | c :: rest =>
    let inq2 := if c = 34 then !inq else inq
    if !inq2 && isAsciiWhitespace c then
      acc.reverse :: splitLoop inq2 [] rest
    else
      splitLoop inq2 (c :: acc) rest

/-- The token list of a command line, per Cmdline::iter. -/
def cmdlineTokens (input : List Nat) : List (List Nat) :=
  splitLoop false [] input

/-- A single kernel command line parameter (kernel_cmdline.rs struct
Parameter): the full original token, the key bytes, and the value bytes
when an equals sign was present. -/
structure Parameter where
  parameter : List Nat
  key : List Nat
  value : Option (List Nat)
deriving DecidableEq, Repr

/-- Embeds the value-quoting logic of impl From for Parameter
(kernel_cmdline.rs lines 196-235): strip a leading double quote if
present, then strip a trailing double quote from the result; if that
second strip fails, fall back to the original value (the two unwrap_or
calls both fall back to the value before the prefix strip). -/
def paramValueStrip (value : List Nat) : List Nat :=
  let afterPrefixStrip :=
    match value with
    | 34 :: rest => rest
    | _ => value
  match afterPrefixStrip.getLast? with
  | some 34 => afterPrefixStrip.dropLast
  | _ => value

/-- Position of the first equals sign (byte 61), as
input.iter().position in Parameter::from. -/
def findEqualsIdx : List Nat → Option Nat
  | [] => none
  | c :: rest =>
    if c = 61 then some 0 else (findEqualsIdx rest).map (fun i => i + 1)

/-- Embeds Parameter::from bytes: split at the first equals sign (byte
61); without one the whole token is a key-only parameter, otherwise the
value is quote-stripped per paramValueStrip. -/
def paramFrom (input : List Nat) : Parameter :=
  match findEqualsIdx input with
  | none => ⟨input, input, none⟩
  | some i => ⟨input, input.take i, some (paramValueStrip (input.drop (i + 1)))⟩

/-- Embeds the dedashed mapping of impl PartialEq for ParameterKey: a
dash (45) is read as an underscore (95). -/
def dedash (c : Nat) : Nat := if c = 45 then 95 else c

/-- Key equality per impl PartialEq for ParameterKey (kernel_cmdline.rs
lines 237-259): the two byte sequences are equal after mapping dashes to
underscores (full sequences are compared, so a proper prefix never
matches). -/
def keyEq (a b : List Nat) : Bool := a.map dedash == b.map dedash

/-- Parameter equality per impl PartialEq for Parameter
(kernel_cmdline.rs lines 282-287): keys dash-insensitively equal and
values exactly equal; the original parameter field is not compared. -/
def paramEq (p q : Parameter) : Bool := keyEq p.key q.key && p.value == q.value

/-- The parameter sequence of Cmdline::iter. -/
def cmdlineParams (input : List Nat) : List Parameter :=
  (cmdlineTokens input).map paramFrom

/-- Embeds Cmdline::find: first parameter whose key matches. -/
def cmdlineFind (input key : List Nat) : Option Parameter :=
  (cmdlineParams input).find? (fun p => keyEq p.key key)

/-- Embeds Cmdline::value_of. -/
def cmdlineValueOf (input key : List Nat) : Option (List Nat) :=
  (cmdlineFind input key).bind (fun p => p.value)

/-- Is the byte a UTF-8 continuation byte. -/
def isCont (c : Nat) : Bool := 128 ≤ c && c ≤ 191

/-- Strict UTF-8 validity of a byte sequence, as checked by Rust
str::from_utf8: no overlong encodings, no surrogates, nothing above
U+10FFFF. -/
def isValidUtf8 : List Nat → Bool
  | [] => true
  | c :: rest =>
    if c ≤ 127 then isValidUtf8 rest
    else if 194 ≤ c && c ≤ 223 then
      match rest with
      | c1 :: r => isCont c1 && isValidUtf8 r
      | [] => false
    else if c = 224 then
      match rest with
      | c1 :: c2 :: r => (160 ≤ c1 && c1 ≤ 191) && isCont c2 && isValidUtf8 r
      | _ => false
    else if 225 ≤ c && c ≤ 236 then
      match rest with
      | c1 :: c2 :: r => isCont c1 && isCont c2 && isValidUtf8 r
      | _ => false
    else if c = 237 then
      match rest with
      | c1 :: c2 :: r => (128 ≤ c1 && c1 ≤ 159) && isCont c2 && isValidUtf8 r
      | _ => false
    else if 238 ≤ c && c ≤ 239 then
      match rest with
      | c1 :: c2 :: r => isCont c1 && isCont c2 && isValidUtf8 r
      | _ => false
    else if c = 240 then
      match rest with
      | c1 :: c2 :: c3 :: r =>
        (144 ≤ c1 && c1 ≤ 191) && isCont c2 && isCont c3 && isValidUtf8 r
      | _ => false
    else if 241 ≤ c && c ≤ 243 then
      match rest with
      | c1 :: c2 :: c3 :: r => isCont c1 && isCont c2 && isCont c3 && isValidUtf8 r
      | _ => false
    else if c = 244 then
      match rest with
      | c1 :: c2 :: c3 :: r =>
        (128 ≤ c1 && c1 ≤ 143) && isCont c2 && isCont c3 && isValidUtf8 r
      | _ => false
    else false

/-- Embeds Parameter::to_str composed with ParameterStr::from: defined
only when the whole token is valid UTF-8, in which case ParameterStr
performs the same first-equals split and quote strip as Parameter::from
(a ParameterStr is modelled as a Parameter whose bytes are valid UTF-8). -/
def paramToStr (p : Parameter) : Option Parameter :=
  if isValidUtf8 p.parameter then some (paramFrom p.parameter) else none

/-- Embeds Cmdline::find_str (kernel_cmdline.rs lines 69-74): parameters
that fail UTF-8 conversion are dropped before the key search. -/
def cmdlineFindStr (input key : List Nat) : Option Parameter :=
  ((cmdlineParams input).filterMap paramToStr).find? (fun p => keyEq p.key key)

/-- Embeds Cmdline::value_of_utf8 (kernel_cmdline.rs lines 101-103): the
raw lookup result is passed through str::from_utf8 and transposed, so a
found non-UTF-8 value is an error while an absent parameter is ok-none. -/
def cmdlineValueOfUtf8 (input key : List Nat) : Except Unit (Option (List Nat)) :=
  match cmdlineValueOf input key with
  | none => Except.ok none
  | some v => if isValidUtf8 v then Except.ok (some v) else Except.error ()

/-! ### Boot Loader Specification configs (crates/lib/src/parsers/bls_config.rs)

Rust strings are modelled as `List Char`. -/

/-- Embeds Rust char::is_whitespace: the Unicode White_Space code
points. -/
def rustIsWhitespace (ch : Char) : Bool :=
  let n := ch.toNat
  n = 0x9 || n = 0xA || n = 0xB || n = 0xC || n = 0xD || n = 0x20 ||
  n = 0x85 || n = 0xA0 || n = 0x1680 || (0x2000 ≤ n && n ≤ 0x200A) ||
  n = 0x2028 || n = 0x2029 || n = 0x202F || n = 0x205F || n = 0x3000

/-- Leading-whitespace strip of str::trim. -/
def trimLeft (l : List Char) : List Char := l.dropWhile rustIsWhitespace

/-- Trailing-whitespace strip of str::trim. -/
def trimRight (l : List Char) : List Char :=
  (l.reverse.dropWhile rustIsWhitespace).reverse

/-- Embeds str::trim: strips Unicode whitespace from both ends. -/
def rustTrim (l : List Char) : List Char := trimRight (trimLeft l)

/-- Strip one trailing carriage return, as str::lines does on each piece
that ended in a line feed. -/
def stripTrailingCR (l : List Char) : List Char :=
  match l.getLast? with
  | some c => if c = '\r' then l.dropLast else l
  | none => l

/-- Worker for rustLines: accumulates the current line reversed; a line
feed emits the line with a trailing carriage return stripped; a final
piece without terminator is emitted as-is unless empty. -/
def rustLinesAux : List Char → List Char → List (List Char)
  | acc, [] => if acc.isEmpty then [] else [acc.reverse]
  | acc, c :: rest =>
    if c = '\n' then stripTrailingCR acc.reverse :: rustLinesAux [] rest
    else rustLinesAux (c :: acc) rest

/-- Embeds str::lines: split at line feeds, strip one carriage return
before each line feed, and drop a final empty piece (the final line
terminator is optional). -/
def rustLines (s : List Char) : List (List Char) := rustLinesAux [] s

/-- Embeds str::split_once with a space pattern: key and value around the
first space, or none when the line holds no space. -/
def splitFirstSpace : List Char → Option (List Char × List Char)
  | [] => none
  | c :: rest =>
    if c = ' ' then some ([], rest)
    else
      match splitFirstSpace rest with
      | some kv => some (c :: kv.1, kv.2)
      | none => none

/-- Embeds struct BLSConfig (bls_config.rs lines 15-38).  The extra
HashMap is modelled as an insertion-ordered association list whose keys
are unique; Rust HashMap equality is equality of the key-value sets,
which on such lists built in a fixed order is list equality. -/
structure BLSConfig where
  title : Option (List Char)
  version : List Char
  linux : List Char
  initrd : List (List Char)
  options : Option (List Char)
  machine_id : Option (List Char)
  sort_key : Option (List Char)
  extra : List (List Char × List Char)
deriving DecidableEq, Repr

/-- Embeds BLSConfig::default: empty strings, empty collections, no
optional fields. -/
def BLSConfig.defaultConfig : BLSConfig :=
  ⟨none, [], [], [], none, none, none, []⟩

/-- Embeds HashMap::insert on the association-list model: replace the
value of an existing key in place, otherwise append. -/
def insertAssoc (m : List (List Char × List Char)) (k v : List Char) :
    List (List Char × List Char) :=
  match m with
  | [] => [(k, v)]
  | kv :: rest => if kv.1 = k then (k, v) :: rest else kv :: insertAssoc rest k v

/-- The mutable accumulator of parse_bls_config (bls_config.rs lines
108-154): one slot per recognized key, the initrd list, and the extra
map. -/
structure ParseState where
  title : Option (List Char)
  version : Option (List Char)
  linux : Option (List Char)
  initrd : List (List Char)
  options : Option (List Char)
  machine_id : Option (List Char)
  sort_key : Option (List Char)
  extra : List (List Char × List Char)
deriving DecidableEq, Repr

/-- All accumulator slots start out empty. -/
def initState : ParseState := ⟨none, none, none, [], none, none, none, []⟩

/-- Embeds the match on the key in parse_bls_config: recognized keys set
their slot (initrd pushes), anything else goes to the extra map. -/
def applyKeyValue (st : ParseState) (key value : List Char) : ParseState :=
  if key = "title".data then { st with title := some value }
  else if key = "version".data then { st with version := some value }
  else if key = "linux".data then { st with linux := some value }
  else if key = "initrd".data then { st with initrd := st.initrd ++ [value] }
  else if key = "options".data then { st with options := some value }
  else if key = "machine-id".data then { st with machine_id := some value }
  else if key = "sort-key".data then { st with sort_key := some value }
  else { st with extra := insertAssoc st.extra key value }

/-- Embeds the loop body of parse_bls_config: trim the line, skip empty
and hash-prefixed lines, split on the first space (lines without a space
are skipped), trim the value, and dispatch on the key. -/
def processLine (st : ParseState) (rawLine : List Char) : ParseState :=
  let line := rustTrim rawLine
  if line = [] then st
  else if line.head? = some '#' then st
  else
    match splitFirstSpace line with
    | none => st
    | some kv => applyKeyValue st kv.1 (rustTrim kv.2)

/-- Parse failure: the two mandatory keys, checked in this order
(bls_config.rs lines 141-142). -/
inductive BlsParseError
  | missingLinux
  | missingVersion
deriving DecidableEq, Repr

/-- Embeds the final checks of parse_bls_config: linux then version must
have been seen. -/
def finalizeParse (st : ParseState) : Except BlsParseError BLSConfig :=
  match st.linux with
  | none => Except.error BlsParseError.missingLinux
  | some l =>
    match st.version with
    | none => Except.error BlsParseError.missingVersion
    | some v =>
      Except.ok ⟨st.title, v, l, st.initrd, st.options, st.machine_id, st.sort_key, st.extra⟩

/-- Embeds parse_bls_config: fold the loop body over the lines of the
input, then finalize. -/
def parse_bls_config (input : List Char) : Except BlsParseError BLSConfig :=
  finalizeParse ((rustLines input).foldl processLine initState)

/-- Each writeln! emits the line followed by a line feed. -/
def joinLines (ls : List (List Char)) : List Char :=
  (ls.map (fun l => l ++ ['\n'])).flatten

/-- The optional single line a writeln! inside an if-let produces. -/
def optLine (kw : List Char) : Option (List Char) → List (List Char)
  | some x => [kw ++ ' ' :: x]
  | none => []

/-- The lines written by impl Display for BLSConfig (bls_config.rs lines
73-100), in emission order: title when present, version, linux, each
initrd, options, machine-id, sort-key when present, then the extra
entries. -/
def fmtLines (c : BLSConfig) : List (List Char) :=
  optLine ("title".data) c.title ++
  ["version".data ++ ' ' :: c.version] ++
  ["linux".data ++ ' ' :: c.linux] ++
  c.initrd.map (fun i => "initrd".data ++ ' ' :: i) ++
  optLine ("options".data) c.options ++
  optLine ("machine-id".data) c.machine_id ++
  optLine ("sort-key".data) c.sort_key ++
  c.extra.map (fun kv => kv.1 ++ ' ' :: kv.2)

/-- Embeds the Display rendering of a BLSConfig. -/
def fmtBLSConfig (c : BLSConfig) : List Char := joinLines (fmtLines c)

/-! ### UAPI version comparison

Modelled from the spec: the version field is compared per the UAPI
Version Format Specification through the external uapi_version crate,
which is not under src/.  The algorithm below is that specification
(strverscmp_improved): irrelevant characters are skipped, a tilde sorts
before anything including end of string, end of string sorts before any
other remaining content, then minus, caret and dot are ranked; when
either remainder starts with a digit, leading zeros are skipped on both
sides and the significant digit runs compare first by length then
digit-wise, where a run may be empty and count as zero (so an all-zero
or absent numeric prefix ties with another such prefix and the loop
continues); otherwise the alphabetical runs compare by code point and
then by length. -/

/-- Characters relevant to the UAPI version comparison. -/
def isVerChar (c : Char) : Bool :=
  let n := c.toNat
  (97 ≤ n && n ≤ 122) || (65 ≤ n && n ≤ 90) || (48 ≤ n && n ≤ 57) ||
  c = '~' || c = '-' || c = '^' || c = '.'

/-- Decimal digit. -/
def isDigitC (c : Char) : Bool :=
  let n := c.toNat
  48 ≤ n && n ≤ 57

/-- ASCII letter. -/
def isAlphaC (c : Char) : Bool :=
  let n := c.toNat
  (97 ≤ n && n ≤ 122) || (65 ≤ n && n ≤ 90)

/-- Lexicographic comparison by code point; on UTF-8 strings this equals
the byte-wise Ord of Rust String. -/
def lexCompare : List Char → List Char → Ordering
  | [], [] => Ordering.eq
  | [], _ :: _ => Ordering.lt
  | _ :: _, [] => Ordering.gt
  | x :: xs, y :: ys =>
    if x.toNat < y.toNat then Ordering.lt
    else if y.toNat < x.toNat then Ordering.gt
    else lexCompare xs ys

/-- One fuelled pass of the UAPI comparison loop; the fuel is spent once
per loop iteration and every iteration that continues consumes at least
one character from the pair, so combined length plus one is always
enough. -/
def uapiCmpFuel : Nat → List Char → List Char → Ordering
  | 0, _, _ => Ordering.eq
  | fuel + 1, a0, b0 =>
    let a := a0.dropWhile (fun c => !isVerChar c)
    let b := b0.dropWhile (fun c => !isVerChar c)
    if a.head? = some '~' || b.head? = some '~' then
      if a.head? = some '~' && b.head? = some '~' then uapiCmpFuel fuel a.tail b.tail
      else if a.head? = some '~' then Ordering.lt
      else Ordering.gt
    else if a.isEmpty || b.isEmpty then
      if a.isEmpty && b.isEmpty then Ordering.eq
      else if a.isEmpty then Ordering.lt
      else Ordering.gt
    else if a.head? = some '-' || b.head? = some '-' then
      if a.head? = some '-' && b.head? = some '-' then uapiCmpFuel fuel a.tail b.tail
      else if a.head? = some '-' then Ordering.lt
      else Ordering.gt
    else if a.head? = some '^' || b.head? = some '^' then
      if a.head? = some '^' && b.head? = some '^' then uapiCmpFuel fuel a.tail b.tail
      else if a.head? = some '^' then Ordering.lt
      else Ordering.gt
    else if a.head? = some '.' || b.head? = some '.' then
      if a.head? = some '.' && b.head? = some '.' then uapiCmpFuel fuel a.tail b.tail
      else if a.head? = some '.' then Ordering.lt
      else Ordering.gt
    else if (a.head?.any isDigitC) || (b.head?.any isDigitC) then
      let a1 := a.dropWhile (fun c => c = '0')
      let b1 := b.dropWhile (fun c => c = '0')
      let da := a1.takeWhile isDigitC
      let db := b1.takeWhile isDigitC
      if da.length < db.length then Ordering.lt
      else if db.length < da.length then Ordering.gt
      else
        match lexCompare da db with
        | Ordering.eq => uapiCmpFuel fuel (a1.drop da.length) (b1.drop db.length)
        | o => o
    else
      match lexCompare (a.takeWhile isAlphaC) (b.takeWhile isAlphaC) with
      | Ordering.eq =>
        uapiCmpFuel fuel (a.drop (a.takeWhile isAlphaC).length)
          (b.drop (b.takeWhile isAlphaC).length)
      | o => o

/-- The UAPI Version Format Specification comparison (modelled from the
spec; see uapiCmpFuel). -/
def uapiCmp (a b : List Char) : Ordering :=
  uapiCmpFuel (a.length + b.length + 1) a b

/-- The shared shape of the two optional-field comparisons in impl Ord
for BLSConfig: compared only when both sides carry the field, otherwise
skipped (treated as equal). -/
def bothSomeCmp (f : List Char → List Char → Ordering) :
    Option (List Char) → Option (List Char) → Ordering
  | some a, some b => f a b
  | _, _ => Ordering.eq

/-- Embeds impl Ord for BLSConfig (bls_config.rs lines 46-71): return the
sort-key comparison when both have one and it is decisive, else the
machine-id comparison when both have one and it is decisive, else the
reversed UAPI version comparison. -/
def cmpBLS (c1 c2 : BLSConfig) : Ordering :=
  if bothSomeCmp lexCompare c1.sort_key c2.sort_key ≠ Ordering.eq then
    bothSomeCmp lexCompare c1.sort_key c2.sort_key
  else if bothSomeCmp lexCompare c1.machine_id c2.machine_id ≠ Ordering.eq then
    bothSomeCmp lexCompare c1.machine_id c2.machine_id
  else (uapiCmp c1.version c2.version).swap

/-- Restates the total order following the spec wording for C6: sort-key
ascending, then machine-id ascending, then version descending under the
UAPI comparison (fields participating only when present on both sides,
as the Boot Loader Specification prescribes). -/
def cmpBLSSpec (c1 c2 : BLSConfig) : Ordering :=
  (bothSomeCmp lexCompare c1.sort_key c2.sort_key).then
    ((bothSomeCmp lexCompare c1.machine_id c2.machine_id).then
      ((uapiCmp c1.version c2.version).swap))

/-! ### Composefs boot-entry setup slice (crates/lib/src/install.rs) -/

/-- The Discoverable Partitions Specification root UUID constant
(install.rs line 118). -/
def DPS_UUID : List Char := "6523f8ae-3eb1-4e2a-a05a-18b695ae656f".data

/-- The read-write kernel argument constant (install.rs line 130). -/
def RW_KARG : List Char := "rw".data

/-- The composefs kernel argument key (composefs_consts.rs line 2). -/
def COMPOSEFS_CMDLINE : List Char := "composefs".data

/-- Embeds enum BootSetupType: a new install carries the root kargs of
the RootSetup and the optional composefs options (of which only the
insecure flag matters here, hence Option Bool mirroring
state.composefs_options.as_ref().map of the insecure field); an upgrade
carries nothing. -/
inductive BootSetupType
  | Setup (kargs : List (List Char)) (composefsInsecure : Option Bool)
  | Upgrade

/-- Embeds Vec::join with a single-space separator. -/
def joinSpace : List (List Char) → List Char
  | [] => []
  | x :: xs => x ++ (xs.map (fun y => ' ' :: y)).flatten

/-- Embeds the cmdline_refs computation of setup_composefs_bls_boot
(install.rs lines 1694-1720): on Setup, the joined root kargs followed by
a space and the composefs argument, whose value is question-mark prefixed
exactly when composefs options are present with insecure set; on
Upgrade, the fixed root-UUID karg, rw, and the composefs argument,
joined by spaces. -/
def blsCmdlineOptions : BootSetupType → List Char → List Char
  | BootSetupType.Setup kargs insecureOpt, idHex =>
    match insecureOpt with
    | some true =>
      joinSpace kargs ++ (' ' :: (COMPOSEFS_CMDLINE ++ ('=' :: ('?' :: idHex))))
    | _ => joinSpace kargs ++ (' ' :: (COMPOSEFS_CMDLINE ++ ('=' :: idHex)))
  | BootSetupType.Upgrade, idHex =>
    joinSpace ["root=UUID=".data ++ DPS_UUID, RW_KARG,
      COMPOSEFS_CMDLINE ++ ('=' :: idHex)]

/-- Embeds the BLSConfig construction of the UsrLibModulesVmLinuz branch
of setup_composefs_bls_boot (install.rs lines 1730-1750): title and the
boot paths keyed by the deployment id hex, sort_key fixed at 1, options
set to the computed cmdline; when a deployment with the same boot digest
exists (symlinkTo, abstracting find_vmlinuz_initrd_duplicates), the linux
and initrd paths point at that deployment instead. -/
def setupComposefsBlsConfig (setupType : BootSetupType) (idHex : List Char)
    (symlinkTo : Option (List Char)) : BLSConfig :=
  let base : BLSConfig :=
    { BLSConfig.defaultConfig with
        title := some idHex
        sort_key := some ['1']
        machine_id := none
        linux := "/boot/".data ++ idHex ++ "/vmlinuz".data
        initrd := ["/boot/".data ++ idHex ++ "/initrd".data]
        options := some (blsCmdlineOptions setupType idHex)
        extra := [] }
  match symlinkTo with
  | some other =>
    { base with
        linux := "/boot/".data ++ other ++ "/vmlinuz".data
        initrd := ["/boot/".data ++ other ++ "/initrd".data] }
  | none => base

/-- The root kargs the spec wording of C2 refers to: those of the
RootSetup on install, the fixed root-UUID and rw pair on upgrade. -/
def rootKargsOf : BootSetupType → List (List Char)
  | BootSetupType.Setup kargs _ => kargs
  | BootSetupType.Upgrade => ["root=UUID=".data ++ DPS_UUID, RW_KARG]

/-- Whether the insecure composefs option is set for this invocation (an
upgrade carries no composefs options). -/
def insecureOf : BootSetupType → Bool
  | BootSetupType.Setup _ (some true) => true
  | _ => false

/-- Modelled from the spec wording for C2: options is the root kargs
followed by the composefs argument, its value question-mark prefixed
exactly when insecure. -/
def blsOptionsSpec (rootKargs : List (List Char)) (insecure : Bool)
    (idHex : List Char) : List Char :=
  joinSpace rootKargs ++
    (' ' :: (COMPOSEFS_CMDLINE ++ ('=' :: (if insecure then '?' :: idHex else idHex))))

/-- The two warnings of the Type2 branch of setup_composefs_uki_boot
(install.rs lines 1886-1902). -/
inductive UkiWarning
  | insecureNotSupportedByUki
  | ukiCmdlineInsecure
deriving DecidableEq, Repr

/-- The fatal error of the Type2 branch: the UKI carries the wrong
composefs parameter (install.rs lines 1906-1910). -/
inductive UkiBootError
  | wrongComposefsParameter
deriving DecidableEq, Repr

/-- Embeds the checking slice of the Type2 branch of
setup_composefs_uki_boot (install.rs lines 1879-1910): given the parsed
composefs id and insecure marker from the UKI cmdline (the result of
get_cmdline_composefs), the install-time insecure option when this is a
new install (None on upgrades), and the deployment id, emit a warning on
an insecure mismatch and fail exactly when the embedded id differs from
the deployment id.  Hash values are byte lists. -/
def setupComposefsUkiCheck (isInsecureFromOpts : Option Bool)
    (composefsCmdline : List Nat) (insecure : Bool) (id : List Nat) :
    List UkiWarning × Except UkiBootError Unit :=
  let warnings :=
    match isInsecureFromOpts with
    | some true => if !insecure then [UkiWarning.insecureNotSupportedByUki] else []
    | some false => if insecure then [UkiWarning.ukiCmdlineInsecure] else []
    | none => []
  if composefsCmdline ≠ id then
    (warnings, Except.error UkiBootError.wrongComposefsParameter)
  else (warnings, Except.ok ())

/-! ### Stream decompressor (crates/ostree-ext/src/generic_decompress.rs)

The inner (compressed) stream is modelled as the list of outcomes of the
successive reads the drain will perform: a successful read of so many
bytes, or an I/O error such as a broken pipe. -/

/-- Embeds std::io::copy from the inner reader into a sink, as performed
by Decompressor::_finish: reads accumulate until end of stream or until a
read fails; it returns the copied byte count or the error, together with
the part of the stream it did not consume (empty on success). -/
def ioCopyDrain : List (Except Unit Nat) → Except Unit Nat × List (Except Unit Nat)
  | [] => (Except.ok 0, [])
  | Except.error e :: rest => (Except.error e, rest)
  | Except.ok n :: rest =>
    let r := ioCopyDrain rest
    ((r.1).map (fun m => n + m), r.2)

/-- Embeds struct Decompressor (generic_decompress.rs lines 80-83): the
boxed inner reader and the finished flag. -/
structure Decompressor where
  inner : List (Except Unit Nat)
  finished : Bool
deriving Repr

/-- Embeds Decompressor::_finish (generic_decompress.rs lines 140-166):
set finished, then drain the inner stream to a sink, surfacing a read
error. -/
def Decompressor.finishImpl (d : Decompressor) : Decompressor × Except Unit Nat :=
  ({ inner := (ioCopyDrain d.inner).2, finished := true }, (ioCopyDrain d.inner).1)

/-- Embeds Decompressor::finish (generic_decompress.rs lines 136-138). -/
def Decompressor.finish (d : Decompressor) : Decompressor × Except Unit Unit :=
  ((d.finishImpl).1, (d.finishImpl).2.map (fun _ => ()))

/-- What dropping does: return normally or panic. -/
inductive DropOutcome
  | ok
  | panicked
deriving DecidableEq, Repr

/-- Embeds impl Drop for Decompressor (generic_decompress.rs lines
91-109): nothing when already finished; otherwise run the best-effort
drain of _finish and panic through expect exactly when it fails. -/
def Decompressor.drop (d : Decompressor) : DropOutcome :=
  if d.finished then DropOutcome.ok
  else
    match (d.finishImpl).2 with
    | Except.ok _ => DropOutcome.ok
    | Except.error _ => DropOutcome.panicked

/-! ### Cleanliness side conditions for the BLS round trip (claim C8) -/

/-- A value round-trips through a BLS line when it is nonempty, carries
no whitespace at either end (the parser trims it) and no line feed (it
must stay on one line). -/
def cleanValue (v : List Char) : Bool :=
  (!v.isEmpty) &&
  (match v.head? with | some c => !rustIsWhitespace c | none => true) &&
  (match v.getLast? with | some c => !rustIsWhitespace c | none => true) &&
  (!v.contains '\n')

/-- The recognized BLS keys of parse_bls_config. -/
def recognizedKeys : List (List Char) :=
  ["title".data, "version".data, "linux".data, "initrd".data,
   "options".data, "machine-id".data, "sort-key".data]

/-- A key occupies the front of its line intact when it is nonempty,
does not start with whitespace or a hash, and contains no space (the
key-value split is on the first space). -/
def cleanKeyword (k : List Char) : Bool :=
  (!k.isEmpty) &&
  (match k.head? with | some c => !rustIsWhitespace c && !(c = '#') | none => true) &&
  (!k.contains ' ')

/-- An extra key round-trips when it occupies its line intact, contains
no line feed, and is none of the recognized keys. -/
def cleanExtraKey (k : List Char) : Bool :=
  cleanKeyword k && (!k.contains '\n') && (!recognizedKeys.contains k)

/-! ### Helper lemmas -/

/-- A parsed parameter keeps the full original token. -/
theorem paramFrom_parameter (l : List Nat) : (paramFrom l).parameter = l := by
  unfold paramFrom
  cases findEqualsIdx l <;> rfl

/-- The first equals sign of a key with no equals sign followed by one
sits right after the key. -/
theorem findEqualsIdx_append (k v : List Nat) (hk : (61 : Nat) ∉ k) :
    findEqualsIdx (k ++ 61 :: v) = some k.length := by
  induction k with
  | nil => simp [findEqualsIdx]
  | cons c k ih =>
    have hc : ¬(c = 61) := fun h => hk (by simp [h])
    simp [findEqualsIdx, hc, ih (fun h => hk (List.mem_cons_of_mem _ h))]

/-- Splitting a token made of an equals-free key, an equals sign and a
value recovers the pair, the value quote-stripped. -/
theorem paramFrom_split (k v : List Nat) (hk : (61 : Nat) ∉ k) :
    paramFrom (k ++ 61 :: v) = ⟨k ++ 61 :: v, k, some (paramValueStrip v)⟩ := by
  unfold paramFrom
  rw [findEqualsIdx_append k v hk]
  have ht : (k ++ 61 :: v).take k.length = k := List.take_left k (61 :: v)
  have hd : (k ++ 61 :: v).drop (k.length + 1) = v := by
    have h1 : k ++ 61 :: v = (k ++ [61]) ++ v := by simp
    have h2 : k.length + 1 = (k ++ [61]).length := by simp
    rw [h1, h2]
    exact List.drop_left _ _
  simp [ht, hd]

/-- A value wrapped in one outer pair of double quotes loses exactly that
pair, whatever stands inside. -/
theorem paramValueStrip_quoted (m : List Nat) :
    paramValueStrip (34 :: (m ++ [34])) = m := by
  unfold paramValueStrip
  simp [List.getLast?_concat, List.dropLast_concat]

/-- Every parameter find_str can return went through the UTF-8 filter. -/
theorem cmdlineFindStr_valid (input key : List Nat) (p : Parameter)
    (h : cmdlineFindStr input key = some p) : isValidUtf8 p.parameter = true := by
  unfold cmdlineFindStr at h
  have hmem := List.mem_of_find?_eq_some h
  rw [List.mem_filterMap] at hmem
  obtain ⟨q, _, hpq⟩ := hmem
  unfold paramToStr at hpq
  by_cases hv : isValidUtf8 q.parameter = true
  · rw [if_pos hv] at hpq
    obtain rfl : paramFrom q.parameter = p := by injection hpq
    rw [paramFrom_parameter]
    exact hv
  · rw [if_neg hv] at hpq
    cases hpq

/-- When the raw lookup finds a parameter whose value is not UTF-8, the
UTF-8 value lookup is an error. -/
theorem valueOfUtf8_error_of_invalid (input key : List Nat) (p : Parameter)
    (v : List Nat) (h1 : cmdlineFind input key = some p) (h2 : p.value = some v)
    (h3 : isValidUtf8 v = false) :
    cmdlineValueOfUtf8 input key = Except.error () := by
  unfold cmdlineValueOfUtf8 cmdlineValueOf
  rw [h1]
  simp [Option.bind, h2, h3]

/-- A successful drain consumed the inner stream to its end. -/
theorem ioCopyDrain_ok_consumed (l : List (Except Unit Nat)) :
    ∀ n, (ioCopyDrain l).1 = Except.ok n → (ioCopyDrain l).2 = [] := by
  induction l with
  | nil => intro n _; rfl
  | cons c rest ih =>
    intro n h
    cases c with
    | error e => simp [ioCopyDrain] at h
    | ok m =>
      simp only [ioCopyDrain] at h ⊢
      cases hr : (ioCopyDrain rest).1 with
      | error e => rw [hr] at h; simp [Except.map] at h
      | ok k => exact ih k hr

/-! ### Claim theorems -/

/-- C1: setup_composefs_uki_boot on a Type2 entry fails exactly when the
composefs id embedded in the UKI cmdline differs from the deployment id,
and the failure outcome never depends on the install-time insecure option
or the embedded insecure marker, whose mismatch only yields warnings. -/
theorem c1_uki_mismatch_fatal_insecure_warns_only
    (opts : Option Bool) (cc : List Nat) (ins : Bool) (id : List Nat) :
    ((setupComposefsUkiCheck opts cc ins id).2
        = Except.error UkiBootError.wrongComposefsParameter ↔ cc ≠ id) ∧
    (∀ opts2 ins2,
      (setupComposefsUkiCheck opts cc ins id).2
        = (setupComposefsUkiCheck opts2 cc ins2 id).2) := by
  unfold setupComposefsUkiCheck
  by_cases h : cc = id <;> simp [h]

/-- C2: the options field written by setup_composefs_bls_boot is the root
kargs followed by the composefs argument, its value question-mark
prefixed exactly when the insecure composefs option is set (never set on
the Upgrade path, which carries no composefs options). -/
theorem c2_bls_options_composefs_insecure_prefix
    (setupType : BootSetupType) (idHex : List Char) (symlinkTo : Option (List Char)) :
    (setupComposefsBlsConfig setupType idHex symlinkTo).options
      = some (blsOptionsSpec (rootKargsOf setupType) (insecureOf setupType) idHex) := by
  cases setupType with
  | Setup kargs insecureOpt =>
    cases symlinkTo <;> rcases insecureOpt with _ | b <;>
      first
      | rfl
      | (cases b <;> rfl)
  | Upgrade =>
    cases symlinkTo <;>
      simp [setupComposefsBlsConfig, blsCmdlineOptions, blsOptionsSpec,
        rootKargsOf, insecureOf, joinSpace, BLSConfig.defaultConfig]

/-- C3 counterexample: a Decompressor over an already-exhausted stream,
dropped without finish, does not panic (matching the test
test_drop_decompressor_with_successful_finish), refuting that dropping
without finish always panics. -/
theorem c3_counterexample :
    (Decompressor.mk [] false).finished = false ∧
    Decompressor.drop ⟨[], false⟩ = DropOutcome.ok := by
  exact ⟨rfl, rfl⟩

/-- C3 amended: finish marks the stream finished and on success has
drained the inner stream to end of stream; dropping an unfinished
Decompressor attempts that same best-effort drain and panics exactly when
the drain fails. -/
theorem c3_amended_drop_drains_panics_only_on_failure (d : Decompressor) :
    ((d.finishImpl).1.finished = true) ∧
    (∀ n, (d.finishImpl).2 = Except.ok n → (d.finishImpl).1.inner = []) ∧
    (d.finished = false →
      (d.drop = DropOutcome.panicked ↔ (d.finishImpl).2 = Except.error ())) := by
  refine ⟨rfl, ?_, ?_⟩
  · intro n h
    unfold Decompressor.finishImpl at h ⊢
    exact ioCopyDrain_ok_consumed d.inner n h
  · intro hfin
    unfold Decompressor.drop
    rw [hfin]
    cases hr : (d.finishImpl).2 with
    | ok n => simp [hr]
    | error e => cases e; simp [hr]

/-- C4 counterexample: two parameters whose full byte sequences agree
after mapping dashes to underscores but whose values differ exactly are
not equal, because dash-underscore equivalence applies to keys only. -/
theorem c4_counterexample :
    (paramFrom (bytes "k=a-b")).parameter.map dedash
      = (paramFrom (bytes "k=a_b")).parameter.map dedash ∧
    paramEq (paramFrom (bytes "k=a-b")) (paramFrom (bytes "k=a_b")) = false := by
  exact ⟨by decide, by decide⟩

/-- C4 amended: two parameters whose key bytes agree after mapping every
dash to an underscore and whose values are byte-for-byte equal are equal
under the implemented equality. -/
theorem c4_amended_key_dedash_value_exact (p q : Parameter)
    (hk : p.key.map dedash = q.key.map dedash) (hv : p.value = q.value) :
    paramEq p q = true := by
  simp [paramEq, keyEq, hk, hv]

/-- C4 witness at the dash-underscore pair of the repository tests. -/
theorem c4_witness :
    paramEq (paramFrom (bytes "a-b=1")) (paramFrom (bytes "a_b=1")) = true :=
  c4_amended_key_dedash_value_exact _ _ (by decide) (by decide)

/-- C5: tokenization splits on unquoted ASCII whitespace only, each token
splits at its first equals sign, and exactly one outer quote pair of a
value is stripped with internal quotes preserved; in particular the
quoted-value example parses to the unquoted value. -/
theorem c5_tokenization_and_quote_stripping :
    (cmdlineParams (bytes "foo=\"quoted value\"")
        = [⟨bytes "foo=\"quoted value\"", bytes "foo", some (bytes "quoted value")⟩]) ∧
    (cmdlineTokens (bytes "foo=\"quoted value\" bar")
        = [bytes "foo=\"quoted value\"", bytes "bar"]) ∧
    ((paramFrom (bytes "foo=\"internal \" quotes \" are ok\"")).value
        = some (bytes "internal \" quotes \" are ok")) ∧
    ((paramFrom (bytes "a=b=c")).key = bytes "a" ∧
      (paramFrom (bytes "a=b=c")).value = some (bytes "b=c")) ∧
    (∀ k v : List Nat, (61 : Nat) ∉ k →
      paramFrom (k ++ 61 :: v) = ⟨k ++ 61 :: v, k, some (paramValueStrip v)⟩) ∧
    (∀ m : List Nat, paramValueStrip (34 :: (m ++ [34])) = m) := by
  exact ⟨by decide, by decide, by decide, ⟨by decide, by decide⟩,
    paramFrom_split, paramValueStrip_quoted⟩

/-- C6: the implemented BLSConfig order is sort-key ascending, then
machine-id ascending, then version descending under the UAPI comparison;
at versions 1.0 and 1.0~rc1 with all other fields equal, the 1.0 entry
sorts strictly earlier. -/
theorem c6_bls_order_sortkey_machineid_version_desc :
    (∀ c1 c2 : BLSConfig, cmpBLS c1 c2 = cmpBLSSpec c1 c2) ∧
    (cmpBLS ⟨none, "1.0".data, "/l".data, [], none, none, none, []⟩
        ⟨none, "1.0~rc1".data, "/l".data, [], none, none, none, []⟩ = Ordering.lt) := by
  constructor
  · intro c1 c2
    unfold cmpBLS cmpBLSSpec
    cases bothSomeCmp lexCompare c1.sort_key c2.sort_key <;>
      cases bothSomeCmp lexCompare c1.machine_id c2.machine_id <;>
        simp [Ordering.then]
  · decide

/-- C7 counterexample: two configs with equal version strings but
different sort keys compare non-equal under the total order and are not
structurally equal, refuting that equality is by version alone. -/
theorem c7_counterexample :
    ((⟨none, ['1'], ['l'], [], none, none, some ['a'], []⟩ : BLSConfig).version
        = (⟨none, ['1'], ['l'], [], none, none, some ['b'], []⟩ : BLSConfig).version) ∧
    (cmpBLS ⟨none, ['1'], ['l'], [], none, none, some ['a'], []⟩
        ⟨none, ['1'], ['l'], [], none, none, some ['b'], []⟩ ≠ Ordering.eq) ∧
    ((⟨none, ['1'], ['l'], [], none, none, some ['a'], []⟩ : BLSConfig)
        ≠ ⟨none, ['1'], ['l'], [], none, none, some ['b'], []⟩) := by
  exact ⟨rfl, by decide, by decide⟩

/-- C7 amended: comparison under the total order depends only on the
sort_key, machine_id and version fields; title, linux, initrd, options
and extra never influence it (while the derived structural equality
compares every field). -/
theorem c7_amended_order_depends_only_on_three_fields (c1 c2 d1 d2 : BLSConfig)
    (h1 : c1.sort_key = d1.sort_key) (h2 : c1.machine_id = d1.machine_id)
    (h3 : c1.version = d1.version) (h4 : c2.sort_key = d2.sort_key)
    (h5 : c2.machine_id = d2.machine_id) (h6 : c2.version = d2.version) :
    cmpBLS c1 c2 = cmpBLS d1 d2 := by
  unfold cmpBLS
  rw [h1, h2, h3, h4, h5, h6]

/-- C7 witness: configs agreeing on the three ordering fields but
differing everywhere else compare identically. -/
theorem c7_witness :
    cmpBLS ⟨some ['t'], ['1'], ['l'], [], none, none, none, []⟩
        ⟨none, ['2'], ['m'], [['i']], some ['o'], none, none, []⟩
      = cmpBLS ⟨none, ['1'], ['x'], [], none, none, none, []⟩
        ⟨some ['u'], ['2'], ['y'], [], some ['z'], none, none, [(['k'], ['v'])]⟩ :=
  c7_amended_order_depends_only_on_three_fields _ _ _ _ rfl rfl rfl rfl rfl rfl

/-- C9: a non-UTF-8 token stays reachable through the raw-byte lookups
while the UTF-8 lookups fail for it: find_str only ever returns
UTF-8-valid parameters, value_of_utf8 errors whenever the raw lookup
finds a non-UTF-8 value, and the 0xff example shows all four behaviours
concretely. -/
theorem c9_nonutf8_reachable_raw_fails_utf8 :
    (∀ input key p, cmdlineFindStr input key = some p →
      isValidUtf8 p.parameter = true) ∧
    (∀ input key p v, cmdlineFind input key = some p → p.value = some v →
      isValidUtf8 v = false → cmdlineValueOfUtf8 input key = Except.error ()) ∧
    (cmdlineFind (bytes "foo=bar a=" ++ [255] ++ bytes " baz=qux") (bytes "a")
        = some ⟨bytes "a=" ++ [255], bytes "a", some [255]⟩) ∧
    (cmdlineValueOf (bytes "foo=bar a=" ++ [255] ++ bytes " baz=qux") (bytes "a")
        = some [255]) ∧
    (cmdlineValueOfUtf8 (bytes "foo=bar a=" ++ [255] ++ bytes " baz=qux") (bytes "a")
        = Except.error ()) ∧
    (cmdlineFindStr (bytes "foo=bar a=" ++ [255] ++ bytes " baz=qux") (bytes "a")
        = none) := by
  exact ⟨cmdlineFindStr_valid, valueOfUtf8_error_of_invalid,
    by decide, by decide, by rfl, by decide⟩

/-- C10: empty tokens between consecutive separators are not filtered
out: they surface as empty-key parameters without value, and an
empty-key lookup finds one. -/
theorem c10_empty_tokens_not_filtered :
    (cmdlineParams (bytes "a  b")
        = [⟨bytes "a", bytes "a", none⟩, ⟨[], [], none⟩, ⟨bytes "b", bytes "b", none⟩]) ∧
    (cmdlineFind (bytes "a  b") [] = some ⟨[], [], none⟩) ∧
    (cmdlineParams (bytes " a ")
        = [⟨[], [], none⟩, ⟨bytes "a", bytes "a", none⟩, ⟨[], [], none⟩]) ∧
    (cmdlineFind (bytes " a ") [] = some ⟨[], [], none⟩) := by
  exact ⟨by decide, by decide, by decide, by decide⟩

/-! ### Lemmas for the BLS round trip (claim C8) -/

/-- Unpacking of the cleanValue side condition. -/
theorem cleanValue_spec (v : List Char) (h : cleanValue v = true) :
    v ≠ [] ∧ (∀ c, v.head? = some c → rustIsWhitespace c = false) ∧
    (∀ c, v.getLast? = some c → rustIsWhitespace c = false) ∧ '\n' ∉ v := by
  unfold cleanValue at h
  simp only [Bool.and_eq_true, Bool.not_eq_true'] at h
  obtain ⟨⟨⟨hne, hh⟩, hl⟩, hc⟩ := h
  refine ⟨by simpa using hne, ?_, ?_, by simpa using hc⟩
  · intro c hc2
    rw [hc2] at hh
    simpa using hh
  · intro c hc2
    rw [hc2] at hl
    simpa using hl

/-- Unpacking of the cleanKeyword side condition. -/
theorem cleanKeyword_spec (k : List Char) (h : cleanKeyword k = true) :
    k ≠ [] ∧ ' ' ∉ k ∧
    (∀ c, k.head? = some c → rustIsWhitespace c = false ∧ ¬(c = '#')) := by
  unfold cleanKeyword at h
  simp only [Bool.and_eq_true, Bool.not_eq_true'] at h
  obtain ⟨⟨hne, hh⟩, hs⟩ := h
  refine ⟨by simpa using hne, by simpa using hs, ?_⟩
  intro c hc
  rw [hc] at hh
  simpa [Bool.and_eq_true, Bool.not_eq_true'] using hh

/-- dropWhile leaves a list alone when its head fails the predicate. -/
theorem dropWhile_eq_self_of_head (p : Char → Bool) (l : List Char)
    (h : ∀ c, l.head? = some c → p c = false) : l.dropWhile p = l := by
  cases l with
  | nil => rfl
  | cons c t => simp [List.dropWhile_cons, h c rfl]

/-- trimRight leaves a list alone when its last character is not
whitespace. -/
theorem trimRight_eq_self (l : List Char)
    (h : ∀ c, l.getLast? = some c → rustIsWhitespace c = false) :
    trimRight l = l := by
  unfold trimRight
  rw [dropWhile_eq_self_of_head _ _ (fun c hc => h c (by rwa [List.head?_reverse] at hc)),
    List.reverse_reverse]

/-- rustTrim leaves a list alone when neither end is whitespace. -/
theorem rustTrim_eq_self (l : List Char)
    (hh : ∀ c, l.head? = some c → rustIsWhitespace c = false)
    (hl : ∀ c, l.getLast? = some c → rustIsWhitespace c = false) :
    rustTrim l = l := by
  unfold rustTrim trimLeft
  rw [dropWhile_eq_self_of_head _ _ hh]
  exact trimRight_eq_self l hl

/-- The head of an append with a nonempty left part. -/
theorem head?_append_left (l m : List Char) (h : l ≠ []) :
    (l ++ m).head? = l.head? := by
  cases l with
  | nil => exact absurd rfl h
  | cons c t => rfl

/-- The last element of an append with a nonempty right part. -/
theorem getLast?_append_right (l m : List Char) (h : m ≠ []) :
    (l ++ m).getLast? = m.getLast? := by
  rw [List.getLast?_append]
  cases hm : m.getLast? with
  | none =>
    rw [List.getLast?_eq_none_iff] at hm
    exact absurd hm h
  | some a => rfl

/-- Splitting on the first space of a space-free key followed by a space
and the value recovers the pair. -/
theorem splitFirstSpace_append (k v : List Char) (hs : ' ' ∉ k) :
    splitFirstSpace (k ++ ' ' :: v) = some (k, v) := by
  induction k with
  | nil => simp [splitFirstSpace]
  | cons c t ih =>
    have hc : ¬(c = ' ') := fun h => hs (by simp [h])
    have ht : ' ' ∉ t := fun h => hs (List.mem_cons_of_mem _ h)
    simp [splitFirstSpace, hc, ih ht]

/-- stripTrailingCR leaves a list alone when it does not end in a
carriage return. -/
theorem stripTrailingCR_eq_self (l : List Char)
    (h : ∀ c, l.getLast? = some c → ¬(c = '\r')) : stripTrailingCR l = l := by
  unfold stripTrailingCR
  cases hm : l.getLast? with
  | none => rfl
  | some a => simp [h a hm]

/-- A BLS display line is free of line feeds and of a trailing carriage
return. -/
theorem fmtLine_clean (kw v : List Char) (hk : '\n' ∉ kw)
    (hv : cleanValue v = true) :
    '\n' ∉ (kw ++ ' ' :: v) ∧
    stripTrailingCR (kw ++ ' ' :: v) = kw ++ ' ' :: v := by
  obtain ⟨hvne, _, hvl, hvn⟩ := cleanValue_spec v hv
  constructor
  · intro hmem
    rcases List.mem_append.mp hmem with h1 | h1
    · exact hk h1
    · rcases List.mem_cons.mp h1 with h2 | h2
      · cases h2
      · exact hvn h2
  · apply stripTrailingCR_eq_self
    intro c hc
    rw [getLast?_append_right _ _ (by simp)] at hc
    have hc2 : v.getLast? = some c := by
      cases v with
      | nil => exact absurd rfl hvne
      | cons x xs => simpa [List.getLast?_cons_cons] using hc
    intro hcr
    have := hvl c hc2
    rw [hcr] at this
    simp [rustIsWhitespace] at this

/-- Processing a line made of a space-free keyword, a space and a clean
value dispatches the untouched pair to applyKeyValue. -/
theorem processLine_keyval (st : ParseState) (kw v : List Char)
    (hkw : cleanKeyword kw = true) (hv : cleanValue v = true) :
    processLine st (kw ++ ' ' :: v) = applyKeyValue st kw v := by
  obtain ⟨hne, hsp, hhead⟩ := cleanKeyword_spec kw hkw
  obtain ⟨hvne, hvh, hvl, _⟩ := cleanValue_spec v hv
  have htrim : rustTrim (kw ++ ' ' :: v) = kw ++ ' ' :: v := by
    apply rustTrim_eq_self
    · intro c hc
      rw [head?_append_left _ _ hne] at hc
      exact (hhead c hc).1
    · intro c hc
      rw [getLast?_append_right _ _ (by simp)] at hc
      have hc2 : v.getLast? = some c := by
        cases v with
        | nil => exact absurd rfl hvne
        | cons x xs => simpa [List.getLast?_cons_cons] using hc
      exact hvl c hc2
  have hnonempty : ¬(kw ++ ' ' :: v = []) := by
    cases kw <;> simp
  have hhash : ¬((kw ++ ' ' :: v).head? = some '#') := by
    cases kw with
    | nil => exact absurd rfl hne
    | cons c t =>
      intro hcontra
      simp only [List.cons_append, List.head?_cons, Option.some.injEq] at hcontra
      exact (hhead c rfl).2 hcontra
  unfold processLine
  rw [htrim, if_neg hnonempty, if_neg hhash, splitFirstSpace_append _ _ hsp]
  have hvtrim : rustTrim v = v := rustTrim_eq_self v hvh hvl
  simp [hvtrim]

/-- One emitted line followed by a line feed peels off under
rustLinesAux. -/
theorem rustLinesAux_line (l : List Char) (acc rest : List Char)
    (h : '\n' ∉ l) :
    rustLinesAux acc (l ++ '\n' :: rest)
      = stripTrailingCR (acc.reverse ++ l) :: rustLinesAux [] rest := by
  induction l generalizing acc with
  | nil => simp [rustLinesAux]
  | cons c t ih =>
    have hc : ¬(c = '\n') := fun hcc => h (by simp [hcc])
    have ht : '\n' ∉ t := fun hm => h (List.mem_cons_of_mem _ hm)
    simp only [List.cons_append, rustLinesAux, hc, if_false, List.append_eq]
    rw [ih _ ht]
    simp

/-- The lines of a joined list of clean lines are the list itself. -/
theorem rustLines_joinLines (ls : List (List Char))
    (h : ∀ l ∈ ls, '\n' ∉ l ∧ stripTrailingCR l = l) :
    rustLines (joinLines ls) = ls := by
  induction ls with
  | nil => rfl
  | cons l t ih =>
    obtain ⟨h1, h2⟩ := h l (List.mem_cons_self l t)
    have hjoin : joinLines (l :: t) = l ++ '\n' :: joinLines t := by
      simp [joinLines]
    unfold rustLines
    rw [hjoin, rustLinesAux_line l [] (joinLines t) h1]
    simp only [List.reverse_nil, List.nil_append, h2]
    exact congrArg (l :: ·) (ih (fun x hx => h x (List.mem_cons_of_mem _ hx)))

/-- Dispatch of the title key. -/
theorem applyKeyValue_title (st : ParseState) (v : List Char) :
    applyKeyValue st ("title".data) v = { st with title := some v } := by
  unfold applyKeyValue
  rw [if_pos rfl]

/-- Dispatch of the version key. -/
theorem applyKeyValue_version (st : ParseState) (v : List Char) :
    applyKeyValue st ("version".data) v = { st with version := some v } := by
  unfold applyKeyValue
  rw [if_neg (by decide), if_pos rfl]

/-- Dispatch of the linux key. -/
theorem applyKeyValue_linux (st : ParseState) (v : List Char) :
    applyKeyValue st ("linux".data) v = { st with linux := some v } := by
  unfold applyKeyValue
  rw [if_neg (by decide), if_neg (by decide), if_pos rfl]

/-- Dispatch of the initrd key, which accumulates. -/
theorem applyKeyValue_initrd (st : ParseState) (v : List Char) :
    applyKeyValue st ("initrd".data) v = { st with initrd := st.initrd ++ [v] } := by
  unfold applyKeyValue
  rw [if_neg (by decide), if_neg (by decide), if_neg (by decide), if_pos rfl]

/-- Dispatch of the options key. -/
theorem applyKeyValue_options (st : ParseState) (v : List Char) :
    applyKeyValue st ("options".data) v = { st with options := some v } := by
  unfold applyKeyValue
  rw [if_neg (by decide), if_neg (by decide), if_neg (by decide), if_neg (by decide),
    if_pos rfl]

/-- Dispatch of the machine-id key. -/
theorem applyKeyValue_machine_id (st : ParseState) (v : List Char) :
    applyKeyValue st ("machine-id".data) v = { st with machine_id := some v } := by
  unfold applyKeyValue
  rw [if_neg (by decide), if_neg (by decide), if_neg (by decide), if_neg (by decide),
    if_neg (by decide), if_pos rfl]

/-- Dispatch of the sort-key key. -/
theorem applyKeyValue_sort_key (st : ParseState) (v : List Char) :
    applyKeyValue st ("sort-key".data) v = { st with sort_key := some v } := by
  unfold applyKeyValue
  rw [if_neg (by decide), if_neg (by decide), if_neg (by decide), if_neg (by decide),
    if_neg (by decide), if_neg (by decide), if_pos rfl]

/-- Dispatch of an unrecognized key into the extra map. -/
theorem applyKeyValue_extra_key (st : ParseState) (k v : List Char)
    (h : recognizedKeys.contains k = false) :
    applyKeyValue st k v = { st with extra := insertAssoc st.extra k v } := by
  have hmem : k ∉ recognizedKeys := by simpa using h
  simp only [recognizedKeys, List.mem_cons, List.not_mem_nil, or_false, not_or] at hmem
  obtain ⟨h1, h2, h3, h4, h5, h6, h7⟩ := hmem
  unfold applyKeyValue
  rw [if_neg h1, if_neg h2, if_neg h3, if_neg h4, if_neg h5, if_neg h6, if_neg h7]

/-- Inserting a fresh key into the association list appends it. -/
theorem insertAssoc_append (m : List (List Char × List Char)) (k v : List Char)
    (h : ¬ k ∈ m.map Prod.fst) : insertAssoc m k v = m ++ [(k, v)] := by
  induction m with
  | nil => rfl
  | cons kv rest ih =>
    have h1 : ¬(kv.1 = k) := fun he => h (by simp [he.symm])
    have h2 : ¬ k ∈ rest.map Prod.fst := fun hm => h (by simp [hm])
    simp [insertAssoc, h1, ih h2]

/-- Folding the optional title line. -/
theorem foldl_opt_title (st : ParseState) (w : Option (List Char))
    (h : w.all cleanValue = true) (hst : st.title = none) :
    List.foldl processLine st (optLine ("title".data) w)
      = { st with title := w } := by
  cases w with
  | none =>
    obtain ⟨t0, v0, l0, i0, o0, m0, s0, e0⟩ := st
    obtain rfl : t0 = none := hst
    rfl
  | some t =>
    simp only [optLine, List.foldl_cons, List.foldl_nil]
    rw [processLine_keyval st _ t (by decide) (by simpa using h), applyKeyValue_title]

/-- Folding the version line. -/
theorem foldl_version_line (st : ParseState) (v : List Char)
    (h : cleanValue v = true) :
    List.foldl processLine st ["version".data ++ ' ' :: v]
      = { st with version := some v } := by
  simp only [List.foldl_cons, List.foldl_nil]
  rw [processLine_keyval st _ v (by decide) h, applyKeyValue_version]

/-- Folding the linux line. -/
theorem foldl_linux_line (st : ParseState) (v : List Char)
    (h : cleanValue v = true) :
    List.foldl processLine st ["linux".data ++ ' ' :: v]
      = { st with linux := some v } := by
  simp only [List.foldl_cons, List.foldl_nil]
  rw [processLine_keyval st _ v (by decide) h, applyKeyValue_linux]

/-- Folding the initrd lines appends them in order. -/
theorem foldl_initrd_lines (st : ParseState) (l : List (List Char))
    (h : l.all cleanValue = true) :
    List.foldl processLine st (l.map (fun i => "initrd".data ++ ' ' :: i))
      = { st with initrd := st.initrd ++ l } := by
  induction l generalizing st with
  | nil =>
    obtain ⟨t0, v0, l0, i0, o0, m0, s0, e0⟩ := st
    simp
  | cons x xs ih =>
    simp only [List.all_cons, Bool.and_eq_true] at h
    simp only [List.map_cons, List.foldl_cons]
    rw [processLine_keyval st _ x (by decide) h.1, applyKeyValue_initrd, ih _ h.2]
    obtain ⟨t0, v0, l0, i0, o0, m0, s0, e0⟩ := st
    simp

/-- Folding the optional options line. -/
theorem foldl_opt_options (st : ParseState) (w : Option (List Char))
    (h : w.all cleanValue = true) (hst : st.options = none) :
    List.foldl processLine st (optLine ("options".data) w)
      = { st with options := w } := by
  cases w with
  | none =>
    obtain ⟨t0, v0, l0, i0, o0, m0, s0, e0⟩ := st
    obtain rfl : o0 = none := hst
    rfl
  | some o =>
    simp only [optLine, List.foldl_cons, List.foldl_nil]
    rw [processLine_keyval st _ o (by decide) (by simpa using h), applyKeyValue_options]

/-- Folding the optional machine-id line. -/
theorem foldl_opt_machine_id (st : ParseState) (w : Option (List Char))
    (h : w.all cleanValue = true) (hst : st.machine_id = none) :
    List.foldl processLine st (optLine ("machine-id".data) w)
      = { st with machine_id := w } := by
  cases w with
  | none =>
    obtain ⟨t0, v0, l0, i0, o0, m0, s0, e0⟩ := st
    obtain rfl : m0 = none := hst
    rfl
  | some m =>
    simp only [optLine, List.foldl_cons, List.foldl_nil]
    rw [processLine_keyval st _ m (by decide) (by simpa using h),
      applyKeyValue_machine_id]

/-- Folding the optional sort-key line. -/
theorem foldl_opt_sort_key (st : ParseState) (w : Option (List Char))
    (h : w.all cleanValue = true) (hst : st.sort_key = none) :
    List.foldl processLine st (optLine ("sort-key".data) w)
      = { st with sort_key := w } := by
  cases w with
  | none =>
    obtain ⟨t0, v0, l0, i0, o0, m0, s0, e0⟩ := st
    obtain rfl : s0 = none := hst
    rfl
  | some k =>
    simp only [optLine, List.foldl_cons, List.foldl_nil]
    rw [processLine_keyval st _ k (by decide) (by simpa using h), applyKeyValue_sort_key]

/-- Folding the extra lines appends the pairs in order when their keys
are fresh and pairwise distinct. -/
theorem foldl_extra_lines (st : ParseState) (ps : List (List Char × List Char))
    (h : ps.all (fun kv => cleanExtraKey kv.1 && cleanValue kv.2) = true)
    (hnd : (ps.map Prod.fst).Nodup)
    (hdisj : ∀ kv ∈ ps, ¬ kv.1 ∈ st.extra.map Prod.fst) :
    List.foldl processLine st (ps.map (fun kv => kv.1 ++ ' ' :: kv.2))
      = { st with extra := st.extra ++ ps } := by
  induction ps generalizing st with
  | nil =>
    obtain ⟨t0, v0, l0, i0, o0, m0, s0, e0⟩ := st
    simp
  | cons kv rest ih =>
    obtain ⟨k, v⟩ := kv
    simp only [List.all_cons, Bool.and_eq_true] at h
    obtain ⟨⟨hk, hv⟩, hrest⟩ := h
    simp only [cleanExtraKey, Bool.and_eq_true, Bool.not_eq_true'] at hk
    obtain ⟨⟨hkw, _⟩, hnr⟩ := hk
    simp only [List.map_cons, List.foldl_cons]
    rw [processLine_keyval st _ v hkw hv, applyKeyValue_extra_key st k v hnr,
      insertAssoc_append _ _ _ (hdisj (k, v) (List.mem_cons_self _ _))]
    simp only [List.map_cons, List.nodup_cons] at hnd
    have hdisj2 : ∀ kv2 ∈ rest,
        ¬ kv2.1 ∈ ({ st with extra := st.extra ++ [(k, v)] } : ParseState).extra.map Prod.fst := by
      intro kv2 hkv2 hmem
      simp only [List.map_append, List.mem_append] at hmem
      rcases hmem with hmem | hmem
      · exact hdisj kv2 (List.mem_cons_of_mem _ hkv2) hmem
      · simp only [List.map_cons, List.map_nil, List.mem_singleton] at hmem
        exact hnd.1 (hmem ▸ List.mem_map_of_mem Prod.fst hkv2)
    rw [ih _ hrest hnd.2 hdisj2]
    obtain ⟨t0, v0, l0, i0, o0, m0, s0, e0⟩ := st
    simp

/-- Every line the Display rendering emits is free of line feeds and of
a trailing carriage return, under the cleanliness side conditions. -/
theorem fmtLines_clean (c : BLSConfig)
    (ht : c.title.all cleanValue = true) (hv : cleanValue c.version = true)
    (hl : cleanValue c.linux = true) (hi : c.initrd.all cleanValue = true)
    (ho : c.options.all cleanValue = true) (hm : c.machine_id.all cleanValue = true)
    (hs : c.sort_key.all cleanValue = true)
    (he : c.extra.all (fun kv => cleanExtraKey kv.1 && cleanValue kv.2) = true) :
    ∀ l ∈ fmtLines c, '\n' ∉ l ∧ stripTrailingCR l = l := by
  intro l hmem
  unfold fmtLines at hmem
  simp only [List.mem_append] at hmem
  rcases hmem with ((((((h1 | h2) | h3) | h4) | h5) | h6) | h7) | h8
  · cases hct : c.title with
    | none => rw [hct] at h1; simp [optLine] at h1
    | some t =>
      rw [hct] at h1
      simp only [optLine, List.mem_singleton] at h1
      subst h1
      rw [hct] at ht
      exact fmtLine_clean _ t (by decide) (by simpa using ht)
  · simp only [List.mem_singleton] at h2
    subst h2
    exact fmtLine_clean _ c.version (by decide) hv
  · simp only [List.mem_singleton] at h3
    subst h3
    exact fmtLine_clean _ c.linux (by decide) hl
  · obtain ⟨i, hi2, rfl⟩ := List.mem_map.mp h4
    exact fmtLine_clean _ i (by decide) (List.all_eq_true.mp hi i hi2)
  · cases hco : c.options with
    | none => rw [hco] at h5; simp [optLine] at h5
    | some o =>
      rw [hco] at h5
      simp only [optLine, List.mem_singleton] at h5
      subst h5
      rw [hco] at ho
      exact fmtLine_clean _ o (by decide) (by simpa using ho)
  · cases hcm : c.machine_id with
    | none => rw [hcm] at h6; simp [optLine] at h6
    | some m =>
      rw [hcm] at h6
      simp only [optLine, List.mem_singleton] at h6
      subst h6
      rw [hcm] at hm
      exact fmtLine_clean _ m (by decide) (by simpa using hm)
  · cases hcs : c.sort_key with
    | none => rw [hcs] at h7; simp [optLine] at h7
    | some k =>
      rw [hcs] at h7
      simp only [optLine, List.mem_singleton] at h7
      subst h7
      rw [hcs] at hs
      exact fmtLine_clean _ k (by decide) (by simpa using hs)
  · obtain ⟨kv, hkv, rfl⟩ := List.mem_map.mp h8
    have hclean := List.all_eq_true.mp he kv hkv
    simp only [Bool.and_eq_true] at hclean
    obtain ⟨hk, hv2⟩ := hclean
    simp only [cleanExtraKey, Bool.and_eq_true, Bool.not_eq_true'] at hk
    exact fmtLine_clean _ kv.2 (by simpa using hk.1.2) hv2

/-- C8 amended: serializing a BLSConfig and reparsing it recovers it
exactly, provided every emitted value is nonempty with no surrounding
whitespace and no line feed, and every extra key is nonempty, avoids
spaces, line feeds, a leading hash and the recognized keys, the extra
keys being pairwise distinct. -/
theorem c8_roundtrip (c : BLSConfig)
    (ht : c.title.all cleanValue = true) (hv : cleanValue c.version = true)
    (hl : cleanValue c.linux = true) (hi : c.initrd.all cleanValue = true)
    (ho : c.options.all cleanValue = true) (hm : c.machine_id.all cleanValue = true)
    (hs : c.sort_key.all cleanValue = true)
    (he : c.extra.all (fun kv => cleanExtraKey kv.1 && cleanValue kv.2) = true)
    (hnd : (c.extra.map Prod.fst).Nodup) :
    parse_bls_config (fmtBLSConfig c) = Except.ok c := by
  unfold parse_bls_config fmtBLSConfig
  rw [rustLines_joinLines _ (fmtLines_clean c ht hv hl hi ho hm hs he)]
  unfold fmtLines
  simp only [List.foldl_append]
  rw [foldl_opt_title initState c.title ht rfl]
  rw [foldl_version_line _ c.version hv]
  rw [foldl_linux_line _ c.linux hl]
  rw [foldl_initrd_lines _ c.initrd hi]
  rw [foldl_opt_options _ c.options ho rfl]
  rw [foldl_opt_machine_id _ c.machine_id hm rfl]
  rw [foldl_opt_sort_key _ c.sort_key hs rfl]
  rw [foldl_extra_lines _ c.extra he hnd (by intro kv _ hmem; simp [initState] at hmem)]
  obtain ⟨t, ver, lin, ini, opt, mid, sk, ex⟩ := c
  simp [finalizeParse, initState]

/-- C8 counterexample: a config whose options value carries a trailing
space (linux and version present) does not round-trip, because the parser
trims values; the claim fails at this input. -/
theorem c8_counterexample :
    parse_bls_config
        (fmtBLSConfig ⟨none, ['1'], ['l'], [], some ['a', ' '], none, none, []⟩)
      ≠ Except.ok ⟨none, ['1'], ['l'], [], some ['a', ' '], none, none, []⟩ := by
  intro h
  have h2 : parse_bls_config
      (fmtBLSConfig ⟨none, ['1'], ['l'], [], some ['a', ' '], none, none, []⟩)
      = Except.ok ⟨none, ['1'], ['l'], [], some ['a'], none, none, []⟩ := by rfl
  rw [h2] at h
  injection h with h3
  exact absurd h3 (by decide)

/-- C8 witness: a fully featured clean config round-trips. -/
theorem c8_witness :
    parse_bls_config (fmtBLSConfig
      ⟨some ("Fedora 42".data), ['2'], "/boot/vmlinuz-5".data,
        ["/boot/a.img".data, "/boot/b.img".data],
        some ("root=UUID=abc rw composefs=xyz".data), some ("mid".data),
        some ['1'], [("custom1".data, "value1".data), ("custom2".data, "value2".data)]⟩)
      = Except.ok
      ⟨some ("Fedora 42".data), ['2'], "/boot/vmlinuz-5".data,
        ["/boot/a.img".data, "/boot/b.img".data],
        some ("root=UUID=abc rw composefs=xyz".data), some ("mid".data),
        some ['1'], [("custom1".data, "value1".data), ("custom2".data, "value2".data)]⟩ :=
  c8_roundtrip _ (by decide) (by decide) (by decide) (by decide) (by decide)
    (by decide) (by decide) (by decide) (by decide)

end Bootc
